import Mathlib

/-!
# Verification of the SignalDeck dashboard core (app.py)

Shallow embedding of the filtering / query-interpretation / aggregate-statistics
core of the dashboard.  A dataset row is modelled as a `Record` carrying the
fields the core reads; numeric columns (floats in the source) are modelled as
exact rationals.  `pandas.sort_values` is modelled as a stable sort
(`List.insertionSort` with a non-strict descending key relation); for the list
sizes evaluated concretely below numpy's introsort degenerates to insertion
sort, which is stable, so the model agrees with the implementation there, and
every theorem stated about sorting is insensitive to the tie-breaking policy
except where stability itself is the point.
-/

/-- One row of the loaded dataset, restricted to the columns the
filtering/query/aggregation core reads. -/
structure Record where
  fundName : String
  sector : String
  intentBucket : String
  intentScore : ℚ
  recentCapital : ℚ
  capitalVelocity : ℚ
deriving DecidableEq, Repr

/-- The three intent-bucket display values used by the app. -/
def hotBucket : String := "🔥 Hot"

def warmBucket : String := "🟡 Warm"

def coldBucket : String := "❄️ Cold"

/-! ## String utilities (Python `str` operations restricted to ASCII data) -/

/-- Python's `needle in hay` substring test, on character lists. -/
def containsSub (needle : List Char) : List Char → Bool
  | [] => needle.isEmpty
  | c :: t => needle.isPrefixOf (c :: t) || containsSub needle t

/-- Substring test on strings (`kw in q` in the source). -/
def kwIn (kw q : String) : Bool := containsSub kw.data q.data

/-- `str.lower()` (ASCII). -/
def lowerStr (s : String) : String := ⟨s.data.map Char.toLower⟩

/-- `re.search` with an alternation of literal keywords: return the keyword of
the leftmost match, trying alternatives in their listed order at each
position. -/
def reSearch (kws : List String) : List Char → Option String
  | [] => kws.find? (fun k => k.data.isPrefixOf [])
  | c :: t =>
    match kws.find? (fun k => k.data.isPrefixOf (c :: t)) with
    | some k => some k
    | none => reSearch kws t

/-- The sector vocabulary of the query interpreter
(`fintech|saas|ai|crypto|health|climate`). -/
def SECTOR_KEYWORDS : List String :=
  ["fintech", "saas", "ai", "crypto", "health", "climate"]

/-! ## Filter engine (app.py lines 109–114) -/

/-- The sidebar filter selections: sector multi-select, intent-bucket
multi-select, and the minimum intent-score slider. -/
structure FilterState where
  sectorFilter : List String
  intentFilter : List String
  minScore : ℚ
deriving DecidableEq, Repr

/-- `filtered = df.copy(); if sector_filter: ...isin...; if intent_filter:
...isin...; filtered = filtered[score >= min_score]`. -/
def filterEngine (df : List Record) (fs : FilterState) : List Record :=
  let f1 := if fs.sectorFilter.isEmpty then df
    else df.filter (fun r => fs.sectorFilter.contains r.sector)
  let f2 := if fs.intentFilter.isEmpty then f1
    else f1.filter (fun r => fs.intentFilter.contains r.intentBucket)
  f2.filter (fun r => fs.minScore ≤ r.intentScore)

/-! ## Sorting and ranking -/

/-- `DataFrame.sort_values(col, ascending=False)`, modelled as a stable
descending sort by the key. -/
def sortDescBy (key : Record → ℚ) (l : List Record) : List Record :=
  List.insertionSort (fun a b => key b ≤ key a) l

/-- `Series.rank(pct=True)` with the default average-tie method: the rank of
value `v` within the column `vals` is (#strictly-smaller) plus half of
(#equal + 1), divided by the column length. -/
def pctRank (v : ℚ) (vals : List ℚ) : ℚ :=
  ((vals.countP (fun x => x < v) : ℚ) + ((vals.countP (fun x => x = v) : ℚ) + 1) / 2)
    / (vals.length : ℚ)

/-- The `signal_rank` column (app.py lines 154–158): weighted sum of the
percentile ranks of recent capital, capital velocity and intent score over the
current table `l`. -/
def signal_rank (r : Record) (l : List Record) : ℚ :=
  pctRank r.recentCapital (l.map (·.recentCapital)) * (45 / 100)
    + pctRank r.capitalVelocity (l.map (·.capitalVelocity)) * (35 / 100)
    + pctRank r.intentScore (l.map (·.intentScore)) * (20 / 100)

/-- The composite-rank operation: compute `signal_rank` over the current table
and sort descending by it (app.py lines 154–159). -/
def rankStep (l : List Record) : List Record :=
  sortDescBy (fun r => signal_rank r l) l

/-! ## Query interpreter (Founder view, app.py lines 137–171) -/

/-- Step 1 — sector narrowing: if the regex finds a sector keyword in the
lowercased query, keep rows whose lowercased Sector contains it. -/
def sectorStep (q : String) (l : List Record) : List Record :=
  match reSearch SECTOR_KEYWORDS q.data with
  | some kw => l.filter (fun r => containsSub kw.data (lowerStr r.sector).data)
  | none => l

/-- Step 2 — size sort: `"largest" in q or "big" in q`. -/
def sizeStep (q : String) (l : List Record) : List Record :=
  if kwIn "largest" q || kwIn "big" q then sortDescBy (·.recentCapital) l else l

/-- Step 3 — speed sort: `"fast" in q or "quick" in q or "moving" in q`. -/
def speedStep (q : String) (l : List Record) : List Record :=
  if kwIn "fast" q || kwIn "quick" q || kwIn "moving" q then
    sortDescBy (·.capitalVelocity) l
  else l

/-- Step 4 — composite rank: fires only on `("largest" in q) and ("fast" in q
or "quick" in q)`. -/
def compositeStep (q : String) (l : List Record) : List Record :=
  if kwIn "largest" q && (kwIn "fast" q || kwIn "quick" q) then rankStep l else l

/-- Step 5 — bucket narrowing: three independent equality restrictions applied
in the order hot, warm, cold. -/
def bucketStep (q : String) (l : List Record) : List Record :=
  let l1 := if kwIn "hot" q then l.filter (fun r => r.intentBucket = hotBucket) else l
  let l2 := if kwIn "warm" q then l1.filter (fun r => r.intentBucket = warmBucket) else l1
  if kwIn "cold" q then l2.filter (fun r => r.intentBucket = coldBucket) else l2

/-- Step 6 — top-K limiting: `"email" in q or "this week" in q or
"reach out" in q` truncates to the first 5 rows. -/
def limitStep (q : String) (l : List Record) : List Record :=
  if kwIn "email" q || kwIn "this week" q || kwIn "reach out" q then l.take 5 else l

/-- The query interpreter: `temp = filtered.copy()`, then—only when the query
string is non-empty (Python truthiness)—the six keyword-driven steps on the
lowercased query, and the `st.success` cardinality summary. Returns the final
table and the summary (`none` when no summary is emitted). -/
def interpretQuery (filtered : List Record) (query : String) :
    List Record × Option Nat :=
  if query = "" then (filtered, none)
  else
    let q := lowerStr query
    let t := limitStep q (bucketStep q (compositeStep q (speedStep q
      (sizeStep q (sectorStep q filtered)))))
    (t, some t.length)

/-! ## Aggregate statistics (Institutional / Advanced views) -/

/-- `filtered["Recent Capital Deployed"].sum()`. -/
def totalRecent (l : List Record) : ℚ := (l.map (·.recentCapital)).sum

/-- Institutional view (app.py lines 239–244): share of recent capital held by
the top `int(0.2·N)` rows after sorting descending by recent capital.  The
source divides unconditionally; a zero total makes the float division produce
NaN (0.0/0.0) or ±inf, modelled as `none`. -/
def capital_share_20 (l : List Record) : Option ℚ :=
  let total := totalRecent l
  let top := totalRecent ((sortDescBy (·.recentCapital) l).take (l.length / 5))
  if total = 0 then none else some (top / total)

/-- Advanced view (app.py lines 333–340): top `int(0.1·N)` share, guarded by
`if total_cap > 0 else 0`. -/
def capital_share (l : List Record) : ℚ :=
  let total := totalRecent l
  let top := totalRecent ((sortDescBy (·.recentCapital) l).take (l.length / 10))
  if 0 < total then top / total else 0

/-! ## GP Name normalization (app.py lines 84–91) -/

/-- `str.replace(r"([a-z])([A-Z])", r"\1 \2", regex=True)`: a single
left-to-right pass inserting a space inside each non-overlapping
lowercase–uppercase pair; scanning resumes after the consumed pair. -/
def camelSplit : List Char → List Char
  | [] => []
  | [a] => [a]
  | a :: b :: rest =>
    if a.isLower && b.isUpper then a :: ' ' :: b :: camelSplit rest
    else a :: camelSplit (b :: rest)

/-- `str.replace("_", " ")` (literal). -/
def underscoreToSpace (l : List Char) : List Char :=
  l.map (fun c => if c = '_' then ' ' else c)

/-- Helper for `str.title()`: the flag records whether the previous character
was a (cased) letter. -/
def pyTitleAux : Bool → List Char → List Char
  | _, [] => []
  | prev, c :: rest =>
    if c.isAlpha then
      (if prev then c.toLower else c.toUpper) :: pyTitleAux true rest
    else c :: pyTitleAux false rest

/-- Python `str.title()` (ASCII): a letter is uppercased when it starts a
maximal run of consecutive letters (first character, or preceded by a
non-letter), and lowercased otherwise; non-letters pass through. -/
def pyTitle (l : List Char) : List Char := pyTitleAux false l

/-- `str.strip()` (ASCII whitespace). -/
def pyStrip (l : List Char) : List Char :=
  ((l.dropWhile Char.isWhitespace).reverse.dropWhile Char.isWhitespace).reverse

/-- The GP Name normalization pipeline of the loader: camel-case split, then
underscore replacement, then `str.title()`, then `str.strip()`. -/
def normalizeGPName (s : String) : String :=
  ⟨pyStrip (pyTitle (underscoreToSpace (camelSplit s.data)))⟩

/-- Modelled from the spec's words for comparison: title-casing that uppercases
the first letter of each *whitespace-delimited token* and lowercases every
other character of the token.  The flag records whether we are at the start of
a token. -/
def specTitleAux : Bool → List Char → List Char
  | _, [] => []
  | atStart, c :: rest =>
    if c.isWhitespace then c :: specTitleAux true rest
    else (if atStart then c.toUpper else c.toLower) :: specTitleAux false rest

/-- Spec-worded title casing over whitespace-delimited tokens. -/
def specTitle (l : List Char) : List Char := specTitleAux true l

/-- The spec's claimed normalization composition (differs from the source only
in the title-casing semantics). -/
def specNormalize (s : String) : String :=
  ⟨pyStrip (specTitle (underscoreToSpace (camelSplit s.data)))⟩

/-- Amended title-casing semantics, stated independently of the implementation:
pair every character with its predecessor (`p` is the predecessor of the first
character); a letter whose predecessor exists and is a letter is lowercased,
any other letter is uppercased, and non-letters are unchanged. -/
def runTitleFrom (p : Option Char) (l : List Char) : List Char :=
  (l.zip (p :: l.map some)).map (fun q =>
    if q.1.isAlpha then
      match q.2 with
      | some pc => if pc.isAlpha then q.1.toLower else q.1.toUpper
      | none => q.1.toUpper
    else q.1)

/-- Amended title casing: uppercase exactly the letters that start a maximal
run of consecutive letters, lowercase the other letters. -/
def runTitle (l : List Char) : List Char := runTitleFrom none l

/-! ## Founder-view render cycle (empty-result handling, app.py 116–118) -/

/-- Outcome of one Founder-view render cycle: either the empty-result notice
(`st.warning` + `st.stop()`, nothing downstream runs), or the downstream
metrics and query result. -/
inductive RenderOutcome where
  | emptyNotice : RenderOutcome
  | rendered : ℚ → List Record × Option Nat → RenderOutcome
deriving DecidableEq

/-- The Founder-view render cycle after loading: filter, halt on empty,
otherwise compute the header metric and run the query interpreter. -/
def founderRender (df : List Record) (fs : FilterState) (q : String) :
    RenderOutcome :=
  let filtered := filterEngine df fs
  if filtered.isEmpty then .emptyNotice
  else .rendered (totalRecent filtered) (interpretQuery filtered q)

/-! ## Helper lemmas -/

lemma sortDescBy_perm (key : Record → ℚ) (l : List Record) :
    List.Perm (sortDescBy key l) l :=
  List.perm_insertionSort _ l

lemma sortDescBy_sorted (key : Record → ℚ) (l : List Record) :
    (sortDescBy key l).Sorted (fun a b => key b ≤ key a) := by
  haveI : IsTotal Record (fun a b => key b ≤ key a) :=
    ⟨fun a b => le_total (key b) (key a)⟩
  haveI : IsTrans Record (fun a b => key b ≤ key a) :=
    ⟨fun _ _ _ h1 h2 => le_trans h2 h1⟩
  exact List.sorted_insertionSort _ l

lemma pctRank_perm (v : ℚ) {l1 l2 : List ℚ} (h : List.Perm l1 l2) :
    pctRank v l1 = pctRank v l2 := by
  unfold pctRank
  rw [h.countP_eq, h.countP_eq, h.length_eq]

lemma signal_rank_congr (r : Record) {l1 l2 : List Record} (h : List.Perm l1 l2) :
    signal_rank r l1 = signal_rank r l2 := by
  unfold signal_rank
  rw [pctRank_perm _ (h.map (·.recentCapital)),
    pctRank_perm _ (h.map (·.capitalVelocity)),
    pctRank_perm _ (h.map (·.intentScore))]

lemma sizeStep_perm (q : String) (l : List Record) : List.Perm (sizeStep q l) l := by
  unfold sizeStep
  split
  · exact sortDescBy_perm _ l
  · exact List.Perm.refl l

lemma speedStep_perm (q : String) (l : List Record) : List.Perm (speedStep q l) l := by
  unfold speedStep
  split
  · exact sortDescBy_perm _ l
  · exact List.Perm.refl l

/-- Two lists that are permutations of each other, both sorted descending by a
key that is injective on the first list, are equal. -/
lemma eq_of_perm_of_sortedDesc (key : Record → ℚ) :
    ∀ {l1 l2 : List Record}, List.Perm l1 l2 →
      l1.Sorted (fun a b => key b ≤ key a) →
      l2.Sorted (fun a b => key b ≤ key a) →
      l1.Pairwise (fun a b => key a ≠ key b) → l1 = l2
  | [], l2, hp, _, _, _ => hp.nil_eq
  | a :: t1, [], hp, _, _, _ => absurd hp.symm (by simp)
  | a :: t1, b :: t2, hp, hs1, hs2, hd => by
    have hab : a = b := by
      by_contra hne
      have ha2 : a ∈ b :: t2 := hp.mem_iff.1 (List.mem_cons_self a t1)
      have ha2' : a ∈ t2 := by
        cases List.mem_cons.1 ha2 with
        | inl h => exact absurd h hne
        | inr h => exact h
      have hb1 : b ∈ a :: t1 := hp.mem_iff.2 (List.mem_cons_self b t2)
      have hb1' : b ∈ t1 := by
        cases List.mem_cons.1 hb1 with
        | inl h => exact absurd h.symm hne
        | inr h => exact h
      have h1 : key b ≤ key a := (List.pairwise_cons.1 hs1).1 b hb1'
      have h2 : key a ≤ key b := (List.pairwise_cons.1 hs2).1 a ha2'
      exact (List.pairwise_cons.1 hd).1 b hb1' (le_antisymm h2 h1)
    subst hab
    have htail := hp.cons_inv
    rw [eq_of_perm_of_sortedDesc key htail hs1.of_cons hs2.of_cons
      (List.pairwise_cons.1 hd).2]

lemma bucket_filter_disjoint {v1 v2 : String} (h : v1 ≠ v2) (l : List Record) :
    (l.filter (fun r => r.intentBucket = v1)).filter
      (fun r => r.intentBucket = v2) = [] := by
  rw [List.filter_eq_nil_iff]
  intro r hr
  have h1 : r.intentBucket = v1 := of_decide_eq_true (List.mem_filter.1 hr).2
  intro h2
  exact h (h1 ▸ of_decide_eq_true h2)

lemma runTitleFrom_cons (p : Option Char) (c : Char) (rest : List Char) :
    runTitleFrom p (c :: rest) =
      (if c.isAlpha then
        (match p with
         | some pc => if pc.isAlpha then c.toLower else c.toUpper
         | none => c.toUpper)
       else c) :: runTitleFrom (some c) rest := rfl

lemma pyTitleAux_eq_runTitleFrom :
    ∀ (l : List Char) (p : Option Char),
      pyTitleAux (p.elim false Char.isAlpha) l = runTitleFrom p l
  | [], _ => rfl
  | c :: rest, p => by
    rw [runTitleFrom_cons]
    show (if c.isAlpha then
        (if p.elim false Char.isAlpha then c.toLower else c.toUpper) ::
          pyTitleAux true rest
      else c :: pyTitleAux false rest) = _
    by_cases hc : c.isAlpha = true
    · rw [if_pos hc, if_pos hc]
      have ih := pyTitleAux_eq_runTitleFrom rest (some c)
      simp only [Option.elim, hc] at ih
      rw [ih]
      cases p <;> rfl
    · rw [if_neg hc, if_neg hc]
      have ih := pyTitleAux_eq_runTitleFrom rest (some c)
      simp only [Option.elim] at ih
      rw [Bool.not_eq_true] at hc
      rw [hc] at ih
      rw [ih]

lemma pyTitle_eq_runTitle (l : List Char) : pyTitle l = runTitle l :=
  pyTitleAux_eq_runTitleFrom l none

lemma ite_filter_sublist (c : Prop) [Decidable c] (l : List Record)
    (p : Record → Bool) :
    List.Sublist (if c then l else l.filter p) l := by
  split
  · exact List.Sublist.refl l
  · exact List.filter_sublist l

/-! ## Claim theorems -/

/-- C6: for every filtered dataset, an empty query text makes the query
interpreter return the input unchanged with no cardinality summary. -/
theorem c6_empty_query_identity (l : List Record) :
    interpretQuery l "" = (l, none) := rfl

/-- C9: the filter engine is a stable filter — its output is a subsequence of
the input, preserving the original relative order of surviving records. -/
theorem c9_filter_stable (df : List Record) (fs : FilterState) :
    List.Sublist (filterEngine df fs) df := by
  unfold filterEngine
  exact (List.filter_sublist _).trans
    ((ite_filter_sublist _ _ _).trans (ite_filter_sublist _ _ _))

/-- C8: whenever the conjunction of sector, bucket and score predicates leaves
zero records, the Founder-view render cycle halts with the empty-result notice
and executes no downstream metric or query step. -/
theorem c8_empty_result_halts (df : List Record) (fs : FilterState)
    (q : String) (h : filterEngine df fs = []) :
    founderRender df fs q = RenderOutcome.emptyNotice := by
  unfold founderRender
  rw [h]
  rfl

def c8df : List Record := [⟨"A", "Tech", hotBucket, 0, 1, 1⟩]

theorem c8_witness :
    founderRender c8df ⟨[], [], 1⟩ "" = RenderOutcome.emptyNotice :=
  c8_empty_result_halts c8df ⟨[], [], 1⟩ "" (by decide)

/-- C7: every record surviving the filter engine meets the intent-score
threshold, and raising the threshold (same sector and bucket selections) never
increases the result size. -/
theorem c7_threshold_monotone (df : List Record) (sec buck : List String)
    (t1 t2 : ℚ) (h : t1 ≤ t2) :
    ((filterEngine df ⟨sec, buck, t2⟩).all
        (fun r => t2 ≤ r.intentScore) = true) ∧
      (filterEngine df ⟨sec, buck, t2⟩).length ≤
        (filterEngine df ⟨sec, buck, t1⟩).length := by
  constructor
  · rw [List.all_eq_true]
    intro r hr
    unfold filterEngine at hr
    exact (List.mem_filter.1 hr).2
  · unfold filterEngine
    dsimp only
    rw [← List.countP_eq_length_filter, ← List.countP_eq_length_filter]
    apply List.countP_mono_left
    intro r _ hp
    exact decide_eq_true (le_trans h (of_decide_eq_true hp))

def c7r : Record := ⟨"A", "Tech", hotBucket, 1, 1, 1⟩

theorem c7_witness :
    ((filterEngine [c7r] ⟨[], [], 1⟩).all
        (fun r => (1 : ℚ) ≤ r.intentScore) = true) ∧
      (filterEngine [c7r] ⟨[], [], 1⟩).length ≤
        (filterEngine [c7r] ⟨[], [], 0⟩).length :=
  c7_threshold_monotone [c7r] [] [] 0 1 (by decide)

/-- C10: when every record's bucket is one of the three bucket values and the
query mentions two or more distinct bucket keywords, the successive equality
restrictions (hot, then warm, then cold) empty the query result. -/
theorem c10_conflicting_buckets (df : List Record) (q : String)
    (_hb : ∀ r ∈ df, r.intentBucket = hotBucket ∨ r.intentBucket = warmBucket ∨
      r.intentBucket = coldBucket)
    (hkw : (kwIn "hot" (lowerStr q) = true ∧ kwIn "warm" (lowerStr q) = true) ∨
      (kwIn "hot" (lowerStr q) = true ∧ kwIn "cold" (lowerStr q) = true) ∨
      (kwIn "warm" (lowerStr q) = true ∧ kwIn "cold" (lowerStr q) = true)) :
    (interpretQuery df q).1 = [] := by
  have hne : ¬(q = "") := by
    intro hq
    subst hq
    revert hkw
    decide
  have hbucket : ∀ l : List Record, bucketStep (lowerStr q) l = [] := by
    intro l
    simp only [bucketStep]
    rcases hkw with ⟨hh, hw⟩ | ⟨hh, hc⟩ | ⟨hw, hc⟩
    · rw [if_pos hh, if_pos hw, bucket_filter_disjoint (by decide) l]
      split
      · rfl
      · rfl
    · rw [if_pos hh, if_pos hc]
      by_cases hw : kwIn "warm" (lowerStr q) = true
      · rw [if_pos hw, bucket_filter_disjoint (by decide) l]
        rfl
      · rw [if_neg hw, bucket_filter_disjoint (by decide) l]
    · rw [if_pos hw, if_pos hc]
      split
      · exact bucket_filter_disjoint (by decide) _
      · exact bucket_filter_disjoint (by decide) _
  unfold interpretQuery
  rw [if_neg hne]
  dsimp only
  rw [hbucket]
  unfold limitStep
  split
  · rfl
  · rfl

def c10r : Record := ⟨"A", "Tech", hotBucket, 1, 1, 1⟩

theorem c10_witness : (interpretQuery [c10r] "hot warm").1 = [] :=
  c10_conflicting_buckets [c10r] "hot warm" (by decide)
    (Or.inl ⟨by decide, by decide⟩)

/-- C5 counterexample: on the raw GP name "ab2cd" the loader (Python
`str.title()`) produces "Ab2Cd", while the claim's whitespace-token title
casing produces "Ab2cd". -/
theorem c5_counterexample :
    normalizeGPName "ab2cd" = "Ab2Cd" ∧ specNormalize "ab2cd" = "Ab2cd" ∧
      normalizeGPName "ab2cd" ≠ specNormalize "ab2cd" :=
  ⟨by decide, by decide, by decide⟩

/-- C5 amended: the loader's normalization equals camel-boundary splitting,
then underscore replacement, then title casing that uppercases exactly the
letters starting a maximal run of consecutive letters (first character or
preceded by a non-letter) and lowercases the other letters, then stripping. -/
theorem c5_amended (s : String) :
    normalizeGPName s =
      ⟨pyStrip (runTitle (underscoreToSpace (camelSplit s.data)))⟩ := by
  unfold normalizeGPName
  rw [pyTitle_eq_runTitle]

/-- A filtered dataset whose only record deployed zero recent capital. -/
def c2r : Record := ⟨"Z", "Tech", hotBucket, 1, 0, 0⟩

/-- C2: on a dataset with zero total recent capital, the Institutional-view
top-20% share divides by zero (NaN, modelled `none`) because line 244 has no
guard, while the Advanced-view top-10% share is guarded and returns 0. -/
theorem c2_division_gap :
    capital_share_20 [c2r] = none ∧ capital_share [c2r] = 0 := by
  constructor
  · simp [capital_share_20, totalRecent, sortDescBy, c2r]
  · simp [capital_share, totalRecent, sortDescBy, c2r]

/-- A record whose sector does not contain "ai". -/
def c1r : Record := ⟨"F", "Fintech", hotBucket, 1, 1, 1⟩

/-- C1 counterexample: on the dataset [c1r] the query
"who should I email this week" returns the empty list, not the first 5 records
of the unchanged input: the regex finds the sector keyword "ai" inside the
word "email", so sector narrowing fires and drops the Fintech record. -/
theorem c1_counterexample :
    (interpretQuery [c1r] "who should I email this week").1 = [] ∧
      List.take 5 [c1r] = [c1r] ∧ ([] : List Record) ≠ [c1r] :=
  ⟨by decide, by decide, by decide⟩

/-- C1 amended: on a non-empty filtered dataset the query
"who should I email this week" performs sector narrowing to records whose
sector contains "ai" (matched inside "email"), no sorting and no bucket
narrowing, and returns the first 5 records of the narrowed input in unchanged
order together with the cardinality summary. -/
theorem c1_amended (l : List Record) (_h : l ≠ []) :
    interpretQuery l "who should I email this week" =
      ((l.filter (fun r =>
          containsSub (String.data "ai") (lowerStr r.sector).data)).take 5,
        some ((l.filter (fun r =>
          containsSub (String.data "ai") (lowerStr r.sector).data)).take 5).length) := by
  unfold interpretQuery
  rw [if_neg (by decide : ¬("who should I email this week" = ""))]
  dsimp only
  have hq : lowerStr "who should I email this week" =
      "who should i email this week" := by decide
  rw [hq]
  unfold sectorStep
  rw [show reSearch SECTOR_KEYWORDS
      (String.data "who should i email this week") = some "ai" from by decide]
  dsimp only
  unfold sizeStep
  rw [show (kwIn "largest" "who should i email this week" ||
      kwIn "big" "who should i email this week") = false from by decide]
  unfold speedStep
  rw [show (kwIn "fast" "who should i email this week" ||
      kwIn "quick" "who should i email this week" ||
      kwIn "moving" "who should i email this week") = false from by decide]
  unfold compositeStep
  rw [show (kwIn "largest" "who should i email this week" &&
      (kwIn "fast" "who should i email this week" ||
        kwIn "quick" "who should i email this week")) = false from by decide]
  simp only [bucketStep]
  rw [show kwIn "hot" "who should i email this week" = false from by decide,
    show kwIn "warm" "who should i email this week" = false from by decide,
    show kwIn "cold" "who should i email this week" = false from by decide]
  unfold limitStep
  rw [show (kwIn "email" "who should i email this week" ||
      kwIn "this week" "who should i email this week" ||
      kwIn "reach out" "who should i email this week") = true from by decide]
  simp

/-- A record whose sector contains "ai". -/
def c1w : Record := ⟨"W", "AI Infra", hotBucket, 1, 1, 1⟩

theorem c1_witness :
    interpretQuery [c1w] "who should I email this week" =
      (([c1w].filter (fun r =>
          containsSub (String.data "ai") (lowerStr r.sector).data)).take 5,
        some (([c1w].filter (fun r =>
          containsSub (String.data "ai") (lowerStr r.sector).data)).take 5).length) :=
  c1_amended [c1w] (by decide)

def c3dA : Record := ⟨"A", "Tech", hotBucket, 1, 10, 1⟩

def c3dB : Record := ⟨"B", "Tech", hotBucket, 0, 1, 2⟩

/-- C3 counterexample: the query "big moving" contains the largeness keyword
"big" and the speed keyword "moving", yet the interpreter returns the
speed-sort order (descending capital velocity), not the composite-rank
order. -/
theorem c3_counterexample :
    kwIn "big" (lowerStr "big moving") = true ∧
      kwIn "moving" (lowerStr "big moving") = true ∧
      (interpretQuery [c3dA, c3dB] "big moving").1 = [c3dB, c3dA] ∧
      rankStep [c3dA, c3dB] = [c3dA, c3dB] ∧
      ([c3dB, c3dA] : List Record) ≠ [c3dA, c3dB] := by
  refine ⟨by decide, by decide, by decide, ?_, by decide⟩
  simp [rankStep, sortDescBy, signal_rank, pctRank, c3dA, c3dB,
    List.insertionSort, List.orderedInsert]
  norm_num

/-- C3 amended: the composite rank fires exactly when the query contains
"largest" together with "fast" or "quick"; then the table after step 4 is a
permutation of the sector-narrowed table (overriding the size-sort and
speed-sort orderings) sorted descending by the composite score
0.45·pctrank(recent capital) + 0.35·pctrank(velocity) + 0.20·pctrank(intent
score). -/
theorem c3_amended (l : List Record) (query : String)
    (h1 : kwIn "largest" (lowerStr query) = true)
    (h2 : kwIn "fast" (lowerStr query) = true ∨
      kwIn "quick" (lowerStr query) = true) :
    List.Perm
      (compositeStep (lowerStr query) (speedStep (lowerStr query)
        (sizeStep (lowerStr query) (sectorStep (lowerStr query) l))))
      (sectorStep (lowerStr query) l) ∧
    List.Sorted
      (fun a b => signal_rank b (sectorStep (lowerStr query) l) ≤
        signal_rank a (sectorStep (lowerStr query) l))
      (compositeStep (lowerStr query) (speedStep (lowerStr query)
        (sizeStep (lowerStr query) (sectorStep (lowerStr query) l)))) := by
  set q0 := lowerStr query with hq0
  set t1 := sectorStep q0 l with ht1
  set t3 := speedStep q0 (sizeStep q0 t1) with ht3
  have hcond : (kwIn "largest" q0 &&
      (kwIn "fast" q0 || kwIn "quick" q0)) = true := by
    rw [h1]
    rcases h2 with h | h <;> rw [h] <;> simp
  have hperm3 : List.Perm t3 t1 := by
    rw [ht3]
    exact (speedStep_perm _ _).trans (sizeStep_perm _ _)
  have hstep : compositeStep q0 t3 = rankStep t3 := by
    unfold compositeStep
    rw [hcond, if_pos rfl]
  constructor
  · rw [hstep]
    exact (sortDescBy_perm _ _).trans hperm3
  · rw [hstep]
    have hs := sortDescBy_sorted (fun r => signal_rank r t3) t3
    exact hs.imp (fun {a b} hab => by
      have hab' : signal_rank b t3 ≤ signal_rank a t3 := hab
      rw [signal_rank_congr b hperm3, signal_rank_congr a hperm3] at hab'
      exact hab')

def c3wA : Record := ⟨"A", "Tech", hotBucket, 1, 10, 1⟩

def c3wB : Record := ⟨"B", "Tech", hotBucket, 0, 1, 2⟩

theorem c3_witness :
    List.Perm
      (compositeStep (lowerStr "largest fast") (speedStep (lowerStr "largest fast")
        (sizeStep (lowerStr "largest fast")
          (sectorStep (lowerStr "largest fast") [c3wA, c3wB]))))
      (sectorStep (lowerStr "largest fast") [c3wA, c3wB]) ∧
    List.Sorted
      (fun a b =>
        signal_rank b (sectorStep (lowerStr "largest fast") [c3wA, c3wB]) ≤
        signal_rank a (sectorStep (lowerStr "largest fast") [c3wA, c3wB]))
      (compositeStep (lowerStr "largest fast") (speedStep (lowerStr "largest fast")
        (sizeStep (lowerStr "largest fast")
          (sectorStep (lowerStr "largest fast") [c3wA, c3wB])))) :=
  c3_amended [c3wA, c3wB] "largest fast" (by decide) (Or.inl (by decide))

def c4dA : Record := ⟨"A", "Tech", hotBucket, 1, 1, 1⟩

def c4dB : Record := ⟨"B", "Tech", hotBucket, 1, 1, 1⟩

/-- C4 counterexample: a dataset of two records tied in all three ranked
metrics (hence in composite score).  The composite-rank step yields one final
ordering on the original dataset and a different one on the reversed dataset:
the stable sort keeps tied records in their input order. -/
theorem c4_counterexample :
    c4dA.recentCapital = c4dB.recentCapital ∧
      c4dA.capitalVelocity = c4dB.capitalVelocity ∧
      c4dA.intentScore = c4dB.intentScore ∧
      rankStep (List.reverse [c4dA, c4dB]) ≠ rankStep [c4dA, c4dB] := by
  have h1 : rankStep [c4dA, c4dB] = [c4dA, c4dB] := by
    simp [rankStep, sortDescBy, signal_rank, pctRank, c4dA, c4dB,
      List.insertionSort, List.orderedInsert]
  have h2 : rankStep [c4dB, c4dA] = [c4dB, c4dA] := by
    simp [rankStep, sortDescBy, signal_rank, pctRank, c4dA, c4dB,
      List.insertionSort, List.orderedInsert]
  refine ⟨by decide, by decide, by decide, ?_⟩
  rw [show List.reverse [c4dA, c4dB] = [c4dB, c4dA] from rfl, h1, h2]
  decide

/-- C4 amended: each record's composite score is order-independent, so on a
dataset whose records have pairwise-distinct composite scores the
composite-rank step yields the same final ordering on the dataset and on its
reversal; with tied composite scores the stable sort preserves the differing
input orders. -/
theorem c4_amended (l : List Record)
    (h : l.Pairwise (fun a b => signal_rank a l ≠ signal_rank b l)) :
    rankStep l.reverse = rankStep l := by
  have hrev : List.Perm l.reverse l := List.reverse_perm l
  have hkey : (fun r => signal_rank r l.reverse) = (fun r => signal_rank r l) :=
    funext fun r => signal_rank_congr r hrev
  unfold rankStep
  rw [hkey]
  apply eq_of_perm_of_sortedDesc (fun r => signal_rank r l)
  · exact (sortDescBy_perm _ _).trans (hrev.trans (sortDescBy_perm _ l).symm)
  · exact sortDescBy_sorted _ _
  · exact sortDescBy_sorted _ _
  · exact (((sortDescBy_perm (fun r => signal_rank r l) l.reverse).trans
      hrev).pairwise_iff (fun {x y} hab he => hab he.symm)).2 h

def c4wA : Record := ⟨"A", "Tech", hotBucket, 1, 10, 1⟩

def c4wB : Record := ⟨"B", "Tech", hotBucket, 0, 1, 2⟩

theorem c4_witness :
    rankStep (List.reverse [c4wA, c4wB]) = rankStep [c4wA, c4wB] :=
  c4_amended [c4wA, c4wB] (by
    refine List.pairwise_cons.2 ⟨?_, List.pairwise_singleton _ _⟩
    intro b hb
    rw [List.mem_singleton] at hb
    subst hb
    simp [signal_rank, pctRank, c4wA, c4wB]
    norm_num)
